import Mathlib

/-!
Shallow embedding of the `dam` iCloud-to-Immich drain pipeline
(`src/drain_icloud.py`, `src/utils/exif_utils.py`, `src/utils/tracker.py`,
`src/utils/immich_client.py`) together with proofs about its batching,
planning, upload-handling, ledger and orchestration behaviour.

Filesystem state (which paths exist) is passed in explicitly as a predicate;
HTTP responses and export outcomes are passed in as environment data, since
those are the external collaborators of the core.
-/

namespace Dam

/-- A broken-down timestamp as Python `datetime` exposes it (the fields
`strftime("%Y-%m-%dT%H:%M:%S.000Z")` reads). -/
structure DateTime where
  year : Nat
  month : Nat
  day : Nat
  hour : Nat
  minute : Nat
  second : Nat
  deriving Repr, DecidableEq

/-- A candidate media item of the source catalog (osxphotos `PhotoInfo`):
stable uuid, optional local path, optional reported byte size, optional
capture and modification times, photo/video flag, original filename. -/
structure Candidate where
  uuid : String
  path : Option String
  original_filesize : Option Nat
  date : Option DateTime
  date_modified : Option DateTime
  isphoto : Bool
  original_filename : Option String
  deriving Repr, DecidableEq

/-! ## Classifier (`src/utils/exif_utils.py`) -/

/-- `PHOTO_EXTENSIONS` of `exif_utils.py`. -/
def PHOTO_EXTENSIONS : List String :=
  [".jpg", ".jpeg", ".png", ".gif", ".webp", ".heic", ".heif", ".tiff",
   ".tif", ".bmp", ".raw", ".dng", ".cr2", ".nef", ".arw"]

/-- `VIDEO_EXTENSIONS` of `exif_utils.py`. -/
def VIDEO_EXTENSIONS : List String :=
  [".mp4", ".mov", ".avi", ".mkv", ".webm", ".m4v", ".3gp"]

/-- `SKIP_EXTENSIONS` of `exif_utils.py`: junk extensions never migrated. -/
def SKIP_EXTENSIONS : List String := [".thm", ".scr", ".lrf"]

/-- ASCII lower-casing of one character, as Python `str.lower` acts on
the ASCII extensions the classifier compares against. -/
def lowerChar (c : Char) : Char :=
  if 'A' ≤ c ∧ c ≤ 'Z' then Char.ofNat (c.toNat + 32) else c

/-- The characters after the last `'.'` of a filename, or `none` when it
contains no dot (the `"." in filename` test together with
`filename.rsplit(".", 1)[-1]`). -/
def afterLastDot : List Char → Option (List Char)
  | [] => none
  | c :: rest =>
    match afterLastDot rest with
    | some s => some s
    | none => if c = '.' then some rest else none

/-- `_get_extension`: lowercase extension after the last dot, with the
dot, or `""` when the filename has no dot. -/
def getExtension (filename : String) : String :=
  match afterLastDot filename.data with
  | some s => String.mk ('.' :: s.map lowerChar)
  | none => ""

/-- `should_skip_file`: true when the lowercase extension is junk. -/
def should_skip_file (filename : String) : Bool :=
  SKIP_EXTENSIONS.contains (getExtension filename)

/-- `get_media_type`: photo / video / none by extension table. -/
def get_media_type (filename : String) : Option String :=
  let ext := getExtension filename
  if SKIP_EXTENSIONS.contains ext then none
  else if PHOTO_EXTENSIONS.contains ext then some "photo"
  else if VIDEO_EXTENSIONS.contains ext then some "video"
  else none

/-! ## Batch planner (`drain_icloud.py`) -/

/-- Python truthiness test `photo.path and Path(photo.path).exists()`:
the candidate has a non-empty local path that exists on the filesystem
`fs` (passed in as a predicate on paths). -/
def localAvail (fs : String → Bool) (p : Candidate) : Bool :=
  match p.path with
  | some s => s ≠ "" && fs s
  | none => false

/-- Python truthiness test
`photo.original_filename and should_skip_file(photo.original_filename)`. -/
def junkGuard (p : Candidate) : Bool :=
  match p.original_filename with
  | some f => f ≠ "" && should_skip_file f
  | none => false

/-- The categorizing loop of `get_photos_to_import`: one pass over the
catalog producing the locally-available list and the cloud-only list,
skipping already-imported uuids and junk filenames. -/
def categorize (imported : List String) (fs : String → Bool)
    (localOnly : Bool) : List Candidate → List Candidate × List Candidate
  | [] => ([], [])
  | p :: rest =>
    let lc := categorize imported fs localOnly rest
    if p.uuid ∈ imported then lc
    else if junkGuard p then lc
    else if localAvail fs p then (p :: lc.1, lc.2)
    else if localOnly then lc
    else (lc.1, p :: lc.2)

/-- `get_photos_to_import`: locally-available candidates first, then the
cloud-only ones. -/
def get_photos_to_import (photos : List Candidate) (imported : List String)
    (fs : String → Bool) (localOnly : Bool) : List Candidate :=
  (categorize imported fs localOnly photos).1
    ++ (categorize imported fs localOnly photos).2

/-- The claim-level predicate "the candidate's filename has a junk
extension (.thm, .scr, .lrf, case-insensitively)": `should_skip_file`
applied to the filename when one is present. -/
def hasJunkFilename (p : Candidate) : Bool :=
  match p.original_filename with
  | some f => should_skip_file f
  | none => false

/-- Declared size of a candidate inside `build_batch`:
`photo.original_filesize or 0`, replaced by the fixed per-kind estimate
(5 MiB photo, 100 MiB video) when absent or zero. -/
def declaredSize (p : Candidate) : Nat :=
  let fileSize := p.original_filesize.getD 0
  if fileSize = 0 then
    if p.isphoto then 5 * 1024 * 1024 else 100 * 1024 * 1024
  else fileSize

/-- The accumulating loop of `build_batch`. `maxItems` is the Python `int`
argument, so it is an integer; `0` means no limit. -/
def buildBatchGo (maxBytes : Nat) (maxItems : Int) :
    List Candidate → List Candidate → Nat → List Candidate
  | [], batch, _ => batch
  | p :: rest, batch, batchSize =>
    if maxItems ≠ 0 ∧ (batch.length : Int) ≥ maxItems then batch
    else
      let fileSize := declaredSize p
      if batchSize + fileSize > maxBytes ∧ batch ≠ [] then batch
      else buildBatchGo maxBytes maxItems rest (batch ++ [p]) (batchSize + fileSize)

/-- `build_batch(photos, max_bytes, max_items)`. -/
def build_batch (photos : List Candidate) (maxBytes : Nat) (maxItems : Int) :
    List Candidate :=
  buildBatchGo maxBytes maxItems photos [] 0

/-- Sum of declared sizes of a batch. -/
def declaredSum (batch : List Candidate) : Nat :=
  (batch.map declaredSize).sum

/-! ## Ledger (`src/utils/tracker.py`) -/

/-- A row of the `imported_assets` table (`icloud_uuid` is the primary
key; the `imported_at` timestamp column is not needed by the claims). -/
structure AssetRecord where
  icloud_uuid : String
  immich_id : Option String
  filename : String
  file_size : Nat
  media_type : String
  deriving Repr, DecidableEq

/-- The `imported_assets` table as a list of rows. -/
abbrev Ledger := List AssetRecord

/-- `ImportTracker.mark_imported`: `INSERT OR REPLACE` keyed on
`icloud_uuid` — any existing row for the uuid is replaced. -/
def mark_imported (db : Ledger) (r : AssetRecord) : Ledger :=
  r :: db.filter (fun a => a.icloud_uuid ≠ r.icloud_uuid)

/-- `ImportTracker.is_imported`: membership test on `icloud_uuid`. -/
def is_imported (db : Ledger) (uuid : String) : Bool :=
  db.any (fun a => a.icloud_uuid = uuid)

/-- `ImportTracker.get_imported_uuids`: the set of imported uuids
(as a list; only membership matters). -/
def get_imported_uuids (db : Ledger) : List String :=
  db.map (fun a => a.icloud_uuid)

/-- Table invariant guaranteed by the `icloud_uuid TEXT PRIMARY KEY`
schema: no two rows share a uuid. -/
def uniqueUuids (db : Ledger) : Prop :=
  db.Pairwise (fun a b => a.icloud_uuid ≠ b.icloud_uuid)

/-! ## Remote upload client (`src/utils/immich_client.py`) -/

/-- `UploadResult` dataclass of `immich_client.py`. -/
structure UploadResult where
  success : Bool
  asset_id : Option String := none
  duplicate : Bool := false
  error : Option String := none
  deriving Repr, DecidableEq

/-- Outcome of the HTTP POST inside `upload_asset`: either a
transport-level `requests.RequestException`, or a response with a status
code, the parsed body fields `id` and `duplicate`, and the raw text. -/
inductive HttpOutcome where
  | transportError (msg : String)
  | response (status : Nat) (bodyId : Option String)
      (bodyDuplicate : Option Bool) (text : String)
  deriving Repr, DecidableEq

/-- `ImmichClient.upload_asset` response handling: the missing-file
precheck, the transport-error handler, and the 201 / 200 / other status
branches. -/
def upload_asset (fileOnDisk : Bool) (filePath : String)
    (resp : HttpOutcome) : UploadResult :=
  if !fileOnDisk then
    { success := false, error := some ("File not found: " ++ filePath) }
  else
    match resp with
    | .transportError msg =>
      { success := false, error := some ("Request error: " ++ msg) }
    | .response status bodyId bodyDuplicate text =>
      if status = 201 then
        { success := true, asset_id := bodyId,
          duplicate := bodyDuplicate.getD false }
      else if status = 200 then
        { success := true, asset_id := bodyId, duplicate := true }
      else
        { success := false,
          error := some ("Upload failed: " ++ toString status ++ " - " ++ text) }

/-- The multipart `data` dict built by `upload_asset`: the timestamp
fields are included only when the corresponding argument is truthy
(a non-empty string). -/
def uploadFormData (deviceAssetId deviceId : String)
    (createdAt modifiedAt : Option String) : List (String × String) :=
  [("deviceAssetId", deviceAssetId), ("deviceId", deviceId)]
    ++ (match createdAt with
        | some s => if s ≠ "" then [("fileCreatedAt", s)] else []
        | none => [])
    ++ (match modifiedAt with
        | some s => if s ≠ "" then [("fileModifiedAt", s)] else []
        | none => [])

/-! ## Timestamp formatting (`process_batch` in `drain_icloud.py`) -/

/-- Zero-padding to two digits, as `strftime` does for `%m %d %H %M %S`. -/
def pad2 (n : Nat) : String :=
  if n < 10 then "0" ++ toString n else toString n

/-- Zero-padding to four digits, as `strftime` does for `%Y`. -/
def pad4 (n : Nat) : String :=
  if n < 10 then "000" ++ toString n
  else if n < 100 then "00" ++ toString n
  else if n < 1000 then "0" ++ toString n
  else toString n

/-- `strftime("%Y-%m-%dT%H:%M:%S.000Z")`: the fixed
ISO-8601-with-milliseconds UTC-suffixed format used for both upload
timestamps. -/
def isoFormat (d : DateTime) : String :=
  pad4 d.year ++ "-" ++ pad2 d.month ++ "-" ++ pad2 d.day ++ "T" ++
    pad2 d.hour ++ ":" ++ pad2 d.minute ++ ":" ++ pad2 d.second ++ ".000Z"

/-! ## Pipeline orchestrator (`process_batch` and `main` in
`drain_icloud.py`) -/

/-- What `export_photo` plus `stat()` yield for one successfully exported
item: the staging file path, its on-disk size, and its filesystem
birth/modification times (the strftime fallbacks of `process_batch`). -/
structure ExportedFile where
  path : String
  size : Nat
  birthtime : DateTime
  mtime : DateTime
  deriving Repr, DecidableEq

/-- External behaviour for one item: the export outcome (`none` means
export failed by timeout, nonzero exit or exception) and the upload
outcome the destination would return for the exported file. -/
structure ItemEnv where
  exportResult : Option ExportedFile
  uploadResult : UploadResult
  deriving Repr, DecidableEq

/-- The `stats` dict of `process_batch`. -/
structure Stats where
  exported : Nat := 0
  uploaded : Nat := 0
  duplicates : Nat := 0
  failed : Nat := 0
  skipped : Nat := 0
  deriving Repr, DecidableEq

/-- One recorded call to `immich.upload_asset` from `process_batch`
(the metadata arguments; the binary payload is the staged file). -/
structure UploadCall where
  device_asset_id : String
  device_id : String
  file_created_at : Option String
  file_modified_at : Option String
  deriving Repr, DecidableEq

/-- Run state threaded through `process_batch`: the Ledger, the set of
files currently in the staging directory, the stats dict, and a log of
the upload calls made. -/
structure RunState where
  ledger : Ledger
  staging : List String
  stats : Stats
  uploadCalls : List UploadCall
  deriving Repr, DecidableEq

/-- `filename = photo.original_filename or f"unknown_{photo.uuid}"`. -/
def filenameFor (p : Candidate) : String :=
  match p.original_filename with
  | some f => if f ≠ "" then f else "unknown_" ++ p.uuid
  | none => "unknown_" ++ p.uuid

/-- `media_type = get_media_type(filename) or ("photo" if photo.isphoto
else "video")`. -/
def mediaTypeFor (p : Candidate) : String :=
  (get_media_type (filenameFor p)).getD (if p.isphoto then "photo" else "video")

/-- The timestamps passed to `upload_asset`: capture / modification time
of the candidate formatted as `isoFormat`, with the exported file's own
filesystem birth / modification time substituted when absent. -/
def timestampsFor (p : Candidate) (f : ExportedFile) : String × String :=
  (isoFormat (p.date.getD f.birthtime),
   isoFormat (p.date_modified.getD f.mtime))

/-- One iteration of the `for photo in batch` loop of `process_batch`:
dry-run short-circuit, export, upload, ledger update, staging cleanup. -/
def processItem (dryRun : Bool) (env : Candidate → ItemEnv)
    (st : RunState) (photo : Candidate) : RunState :=
  if dryRun then
    { st with stats := { st.stats with skipped := st.stats.skipped + 1 } }
  else
    match (env photo).exportResult with
    | none =>
      { st with stats := { st.stats with failed := st.stats.failed + 1 } }
    | some f =>
      let st1 : RunState :=
        { st with
          staging := f.path :: st.staging,
          stats := { st.stats with exported := st.stats.exported + 1 } }
      let ts := timestampsFor photo f
      let st2 : RunState :=
        { st1 with
          uploadCalls := st1.uploadCalls ++
            [⟨photo.uuid, "dam-icloud-drain", some ts.1, some ts.2⟩] }
      let result := (env photo).uploadResult
      if result.success then
        let stats3 :=
          if result.duplicate then
            { st2.stats with duplicates := st2.stats.duplicates + 1 }
          else
            { st2.stats with uploaded := st2.stats.uploaded + 1 }
        { st2 with
          stats := stats3,
          ledger := mark_imported st2.ledger
            ⟨photo.uuid, result.asset_id, filenameFor photo, f.size,
             mediaTypeFor photo⟩,
          staging := st2.staging.erase f.path }
      else
        { st2 with
          stats := { st2.stats with failed := st2.stats.failed + 1 },
          staging := st2.staging.erase f.path }

/-- `process_batch`: fold the item loop over the batch, starting from
zeroed stats (the dict literal at the top of the function) and the given
ledger and staging directory. -/
def processBatch (dryRun : Bool) (env : Candidate → ItemEnv)
    (batch : List Candidate) (ledger : Ledger) (staging : List String) :
    RunState :=
  batch.foldl (processItem dryRun env)
    { ledger := ledger, staging := staging, stats := {}, uploadCalls := [] }

/-- The end-of-batch cleanup sweep in `main` (`for f in
cfg.staging_dir.iterdir(): f.unlink()`): every staging file is removed. -/
def sweepStaging (st : RunState) : RunState :=
  { st with staging := [] }

/-- The batching loop of `main`, with explicit fuel: build a batch, stop
when it is empty, otherwise drop its uuids from the worklist and repeat.
Returns the sequence of batches processed. -/
def drainLoop (maxBytes : Nat) (maxItems : Int) :
    Nat → List Candidate → List (List Candidate)
  | 0, _ => []
  | fuel + 1, photos =>
    match photos with
    | [] => []
    | _ :: _ =>
      let batch := build_batch photos maxBytes maxItems
      if batch = [] then []
      else
        batch :: drainLoop maxBytes maxItems fuel
          (photos.filter (fun p => ¬ (batch.map Candidate.uuid).contains p.uuid))

/-! ## Concrete fixtures used by witness theorems -/

/-- A plain photo candidate with no local path. -/
def pC2 : Candidate := ⟨"u-c2", none, some 1000, none, none, true, some "a.jpg"⟩

/-- A small photo candidate for the batching claims. -/
def pC1 : Candidate := ⟨"u-c1", none, some 10, none, none, true, some "c.jpg"⟩

/-- A locally available photo candidate. -/
def aC3 : Candidate :=
  ⟨"u-a", some "/a", some 10, none, none, true, some "a.jpg"⟩

/-- A second locally available photo candidate. -/
def bC3 : Candidate :=
  ⟨"u-b", some "/b", some 10, none, none, true, some "b.jpg"⟩

/-- A filesystem on which every path exists. -/
def fsAll : String → Bool := fun _ => true

/-- A concrete exported staging file. -/
def fC5 : ExportedFile :=
  ⟨"/staging/e.jpg", 1234, ⟨2020, 1, 2, 3, 4, 5⟩, ⟨2021, 2, 3, 4, 5, 6⟩⟩

/-- A photo candidate used for the duplicate-upload scenario. -/
def pC5 : Candidate := ⟨"u-c5", none, some 99, none, none, true, some "e.jpg"⟩

/-- An environment whose upload reports success with `duplicate = true`. -/
def envC5 : Candidate → ItemEnv :=
  fun _ => ⟨some fC5, ⟨true, some "imm-1", true, none⟩⟩

/-- An empty starting run state. -/
def stEmpty : RunState := ⟨[], [], {}, []⟩

/-- A photo candidate whose export will fail. -/
def pC6 : Candidate := ⟨"u-c6", none, some 5, none, none, true, some "f.jpg"⟩

/-- An environment whose export fails for every item. -/
def envC6 : Candidate → ItemEnv :=
  fun _ => ⟨none, ⟨false, none, false, some "no"⟩⟩

/-- A photo candidate with no capture/modification times. -/
def pC8 : Candidate := ⟨"u-c8", none, some 7, none, none, true, some "g.jpg"⟩

/-- An environment with a successful export and a failing upload. -/
def envC8 : Candidate → ItemEnv :=
  fun _ => ⟨some fC5, ⟨false, none, false, some "err"⟩⟩

/-- The upload call the C8 scenario produces. -/
def callC8 : UploadCall :=
  ⟨"u-c8", "dam-icloud-drain", some (isoFormat ⟨2020, 1, 2, 3, 4, 5⟩),
   some (isoFormat ⟨2021, 2, 3, 4, 5, 6⟩)⟩

/-! ## Helper lemmas -/

/-- `INSERT OR REPLACE` preserves uuid uniqueness of the table. -/
lemma mark_imported_unique (db : Ledger) (r : AssetRecord)
    (h : uniqueUuids db) : uniqueUuids (mark_imported db r) := by
  unfold uniqueUuids mark_imported
  refine List.Pairwise.cons ?_ ?_
  · intro a ha
    have := (List.mem_filter.mp ha).2
    simp only [decide_eq_true_eq] at this
    exact fun hr => this hr.symm
  · exact List.Pairwise.sublist (List.filter_sublist db) h

/-- Any ledger built by a sequence of `mark_imported` calls from the
empty table has unique uuids. -/
lemma foldl_mark_imported_unique (ops : List AssetRecord) :
    ∀ db : Ledger, uniqueUuids db →
      uniqueUuids (ops.foldl mark_imported db) := by
  induction ops with
  | nil => intro db h; exact h
  | cons r rest ih =>
    intro db h
    exact ih (mark_imported db r) (mark_imported_unique db r h)

/-- Everything in the locally-available part of `categorize` passed the
filters and is locally available. -/
lemma mem_categorize_fst (imported : List String) (fs : String → Bool)
    (localOnly : Bool) (p : Candidate) :
    ∀ photos : List Candidate,
      p ∈ (categorize imported fs localOnly photos).1 →
      p ∈ photos ∧ p.uuid ∉ imported ∧ junkGuard p = false
        ∧ localAvail fs p = true := by
  intro photos
  induction photos with
  | nil => intro h; simp [categorize] at h
  | cons q rest ih =>
    intro h
    simp only [categorize] at h
    split_ifs at h with h1 h2 h3 h4
    · rcases ih h with ⟨hm, h5, h6, h7⟩
      exact ⟨List.mem_cons_of_mem q hm, h5, h6, h7⟩
    · rcases ih h with ⟨hm, h5, h6, h7⟩
      exact ⟨List.mem_cons_of_mem q hm, h5, h6, h7⟩
    · rcases List.mem_cons.mp h with rfl | hm
      · exact ⟨List.mem_cons_self p rest, h1, by simpa using h2, h3⟩
      · rcases ih hm with ⟨hm2, h5, h6, h7⟩
        exact ⟨List.mem_cons_of_mem q hm2, h5, h6, h7⟩
    · rcases ih h with ⟨hm, h5, h6, h7⟩
      exact ⟨List.mem_cons_of_mem q hm, h5, h6, h7⟩
    · rcases ih h with ⟨hm, h5, h6, h7⟩
      exact ⟨List.mem_cons_of_mem q hm, h5, h6, h7⟩

/-- Everything in the cloud-only part of `categorize` passed the
filters, is not locally available, and only exists when `local_only`
is off. -/
lemma mem_categorize_snd (imported : List String) (fs : String → Bool)
    (localOnly : Bool) (p : Candidate) :
    ∀ photos : List Candidate,
      p ∈ (categorize imported fs localOnly photos).2 →
      p ∈ photos ∧ p.uuid ∉ imported ∧ junkGuard p = false
        ∧ localAvail fs p = false ∧ localOnly = false := by
  intro photos
  induction photos with
  | nil => intro h; simp [categorize] at h
  | cons q rest ih =>
    intro h
    simp only [categorize] at h
    split_ifs at h with h1 h2 h3 h4
    · rcases ih h with ⟨hm, h5, h6, h7, h8⟩
      exact ⟨List.mem_cons_of_mem q hm, h5, h6, h7, h8⟩
    · rcases ih h with ⟨hm, h5, h6, h7, h8⟩
      exact ⟨List.mem_cons_of_mem q hm, h5, h6, h7, h8⟩
    · rcases ih h with ⟨hm, h5, h6, h7, h8⟩
      exact ⟨List.mem_cons_of_mem q hm, h5, h6, h7, h8⟩
    · rcases ih h with ⟨hm, h5, h6, h7, h8⟩
      exact ⟨List.mem_cons_of_mem q hm, h5, h6, h7, h8⟩
    · rcases List.mem_cons.mp h with rfl | hm
      · exact ⟨List.mem_cons_self p rest, h1, by simpa using h2,
          by simpa using h3, by simpa using h4⟩
      · rcases ih hm with ⟨hm2, h5, h6, h7, h8⟩
        exact ⟨List.mem_cons_of_mem q hm2, h5, h6, h7, h8⟩

/-- A candidate that passes every filter lands in the matching part of
`categorize`. -/
lemma categorize_complete (imported : List String) (fs : String → Bool)
    (localOnly : Bool) (p : Candidate) :
    ∀ photos : List Candidate, p ∈ photos → p.uuid ∉ imported →
      junkGuard p = false →
      (localAvail fs p = true → p ∈ (categorize imported fs localOnly photos).1)
      ∧ (localAvail fs p = false → localOnly = false →
          p ∈ (categorize imported fs localOnly photos).2) := by
  intro photos
  induction photos with
  | nil => intro h; simp at h
  | cons q rest ih =>
    intro hmem h1 h2
    rcases List.mem_cons.mp hmem with rfl | hm
    · constructor
      · intro h3
        simp only [categorize, if_neg h1, h2, Bool.false_eq_true, if_false,
          if_pos h3]
        exact List.mem_cons_self p _
      · intro h3 h4
        have h3' : ¬ (localAvail fs p = true) := by simp [h3]
        have h4' : ¬ (localOnly = true) := by simp [h4]
        simp only [categorize, if_neg h1, h2, Bool.false_eq_true, if_false,
          if_neg h3', if_neg h4']
        exact List.mem_cons_self p _
    · rcases ih hm h1 h2 with ⟨ihl, ihc⟩
      constructor
      · intro h3
        simp only [categorize]
        split_ifs with g1 g2 g3 g4
        · exact ihl h3
        · exact ihl h3
        · exact List.mem_cons_of_mem q (ihl h3)
        · exact ihl h3
        · exact ihl h3
      · intro h3 h4
        simp only [categorize]
        split_ifs with g1 g2 g3 g4
        · exact ihc h3 h4
        · exact ihc h3 h4
        · exact ihc h3 h4
        · exact ihc h3 h4
        · exact List.mem_cons_of_mem q (ihc h3 h4)

/-- `declaredSum` over a batch extended on the right. -/
lemma declaredSum_append (xs : List Candidate) (p : Candidate) :
    declaredSum (xs ++ [p]) = declaredSum xs + declaredSize p := by
  simp [declaredSum]

/-- The batch accumulator always returns the given batch extended by a
prefix of the remaining worklist. -/
lemma buildBatchGo_take (mb : Nat) (mi : Int) :
    ∀ (rest batch : List Candidate) (size : Nat),
      ∃ k, buildBatchGo mb mi rest batch size = batch ++ rest.take k := by
  intro rest
  induction rest with
  | nil => intro batch size; exact ⟨0, by simp [buildBatchGo]⟩
  | cons p t ih =>
    intro batch size
    simp only [buildBatchGo]
    split_ifs with h1 h2
    · exact ⟨0, by simp⟩
    · exact ⟨0, by simp⟩
    · rcases ih (batch ++ [p]) (size + declaredSize p) with ⟨k, hk⟩
      refine ⟨k + 1, ?_⟩
      rw [hk, List.append_assoc, List.take_succ_cons]
      rfl

/-- With a positive item cap, the batch accumulator never grows the batch
past the cap. -/
lemma buildBatchGo_length (mb : Nat) (mi : Int) (hmi : 0 < mi) :
    ∀ (rest batch : List Candidate) (size : Nat),
      (batch.length : Int) ≤ mi →
      ((buildBatchGo mb mi rest batch size).length : Int) ≤ mi := by
  intro rest
  induction rest with
  | nil => intro batch size h; simpa [buildBatchGo] using h
  | cons p t ih =>
    intro batch size h
    simp only [buildBatchGo]
    split_ifs with h1 h2
    · exact h
    · exact h
    · apply ih
      have hlt : (batch.length : Int) < mi := by
        by_contra hc
        push_neg at hc
        exact h1 ⟨by omega, hc⟩
      rw [List.length_append]
      push_cast
      simp only [List.length_cons, List.length_nil]
      omega

/-- Once the accumulated batch is non-empty and within budget, it stays
within budget. -/
lemma buildBatchGo_size (mb : Nat) (mi : Int) :
    ∀ (rest batch : List Candidate) (size : Nat),
      batch ≠ [] → declaredSum batch ≤ mb → size = declaredSum batch →
      declaredSum (buildBatchGo mb mi rest batch size) ≤ mb := by
  intro rest
  induction rest with
  | nil => intro batch size hne hle hsz; simpa [buildBatchGo] using hle
  | cons p t ih =>
    intro batch size hne hle hsz
    simp only [buildBatchGo]
    split_ifs with h1 h2
    · exact hle
    · exact hle
    · have hle2 : size + declaredSize p ≤ mb := by
        by_contra hc
        push_neg at hc
        exact h2 ⟨by omega, hne⟩
      apply ih (batch ++ [p]) (size + declaredSize p) (by simp)
      · rw [declaredSum_append]
        omega
      · rw [declaredSum_append]
        omega

/-- With a single oversized first item in the batch, the accumulator
stops immediately: the oversized item is taken alone. -/
lemma buildBatchGo_oversized (mb : Nat) (mi : Int) (p : Candidate)
    (hp : mb < declaredSize p) :
    ∀ (rest : List Candidate) (size : Nat), size = declaredSize p →
      buildBatchGo mb mi rest [p] size = [p] := by
  intro rest
  cases rest with
  | nil => intro size h; simp [buildBatchGo]
  | cons q t =>
    intro size hsz
    simp only [buildBatchGo]
    split_ifs with h1 h2
    · rfl
    · rfl
    · exfalso
      exact h2 ⟨by omega, by simp⟩

/-- A false `junkGuard` means the filename (if any) is not junk. -/
lemma hasJunkFilename_of_guard (p : Candidate)
    (h : junkGuard p = false) : hasJunkFilename p = false := by
  unfold junkGuard at h
  unfold hasJunkFilename
  cases hf : p.original_filename with
  | none => rfl
  | some f =>
    rw [hf] at h
    by_cases he : f = ""
    · subst he; decide
    · simpa [he] using h

/-! ## Claim theorems -/

/-- C9: after `mark_imported` for an identifier, `is_imported` returns
true and the identifier is among `get_imported_uuids`; a second record
for the same identifier replaces the existing row (the table holds
exactly the new row for that uuid), and any ledger built from the empty
table by `mark_imported` calls never holds two records for one
identifier. -/
theorem ledger_upsert (db : Ledger) (r : AssetRecord)
    (ops : List AssetRecord) :
    is_imported (mark_imported db r) r.icloud_uuid = true
    ∧ r.icloud_uuid ∈ get_imported_uuids (mark_imported db r)
    ∧ (mark_imported db r).filter
        (fun a => a.icloud_uuid = r.icloud_uuid) = [r]
    ∧ uniqueUuids (ops.foldl mark_imported []) := by
  refine ⟨?_, ?_, ?_, ?_⟩
  · simp [is_imported, mark_imported]
  · simp [get_imported_uuids, mark_imported]
  · simp only [mark_imported, List.filter_cons, decide_eq_true_eq,
      if_true, eq_self_iff_true, List.filter_filter]
    have : ∀ a : AssetRecord,
        (decide (a.icloud_uuid = r.icloud_uuid)
          && decide (a.icloud_uuid ≠ r.icloud_uuid)) = false := by
      intro a
      by_cases h : a.icloud_uuid = r.icloud_uuid <;> simp [h]
    simp [this]
  · exact foldl_mark_imported_unique ops [] List.Pairwise.nil

/-- C1 counterexample: as literally stated the item-count cap fails for
the nonzero cap `max_items = -1` (reachable through the `int`-typed
`--max-items` CLI option): the loop breaks immediately and the empty
batch has more than `-1` items. -/
theorem buildBatch_negative_cap_cex :
    (-1 : Int) ≠ 0
    ∧ ¬ (((build_batch [pC1] 1000000 (-1)).length : Int) ≤ -1) := by
  constructor
  · decide
  · decide

/-- C1 (amended to a positive item cap): `build_batch` returns at most
`max_items` items when `max_items` is positive, and its accumulated
declared size never exceeds `max_bytes` except when the batch is a
single first oversized item taken alone. -/
theorem buildBatch_caps (photos : List Candidate) (maxBytes : Nat)
    (maxItems : Int) :
    (0 < maxItems →
      ((build_batch photos maxBytes maxItems).length : Int) ≤ maxItems)
    ∧ (declaredSum (build_batch photos maxBytes maxItems) ≤ maxBytes
       ∨ ∃ p, build_batch photos maxBytes maxItems = [p]
           ∧ photos.head? = some p ∧ maxBytes < declaredSize p) := by
  constructor
  · intro hmi
    apply buildBatchGo_length maxBytes maxItems hmi photos [] 0
    simp
    omega
  · cases photos with
    | nil => left; simp [build_batch, buildBatchGo, declaredSum]
    | cons p t =>
      unfold build_batch
      simp only [buildBatchGo]
      split_ifs with h1 h2
      · left; simp [declaredSum]
      · exact absurd h2.2 (by simp)
      · by_cases hover : maxBytes < declaredSize p
        · right
          exact ⟨p, buildBatchGo_oversized maxBytes maxItems p hover t
            (0 + declaredSize p) (by omega), rfl, hover⟩
        · left
          push_neg at hover
          apply buildBatchGo_size maxBytes maxItems t [p]
            (0 + declaredSize p) (by simp)
          · simpa [declaredSum] using hover
          · simp [declaredSum]

/-- C1 witness: the theorem applied at a concrete worklist and caps. -/
theorem buildBatch_caps_app :
    ((build_batch [pC1] 1000000 3).length : Int) ≤ 3
    ∧ (declaredSum (build_batch [pC1] 1000000 3) ≤ 1000000
       ∨ ∃ p, build_batch [pC1] 1000000 3 = [p]
           ∧ ([pC1] : List Candidate).head? = some p
           ∧ 1000000 < declaredSize p) :=
  ⟨(buildBatch_caps [pC1] 1000000 3).1 (by decide),
   (buildBatch_caps [pC1] 1000000 3).2⟩

/-- C2: the planning output contains no candidate whose identifier is in
the migrated set and no candidate whose filename has a junk extension,
regardless of the rest of the ledger state. -/
theorem planning_excludes (photos : List Candidate) (imported : List String)
    (fs : String → Bool) (localOnly : Bool) (p : Candidate)
    (hp : p ∈ get_photos_to_import photos imported fs localOnly) :
    p.uuid ∉ imported ∧ hasJunkFilename p = false := by
  unfold get_photos_to_import at hp
  rcases List.mem_append.mp hp with h | h
  · rcases mem_categorize_fst imported fs localOnly p photos h with
      ⟨_, h2, h3, _⟩
    exact ⟨h2, hasJunkFilename_of_guard p h3⟩
  · rcases mem_categorize_snd imported fs localOnly p photos h with
      ⟨_, h2, h3, _, _⟩
    exact ⟨h2, hasJunkFilename_of_guard p h3⟩

/-- C2 witness: the theorem applied to a concrete one-candidate catalog. -/
theorem planning_excludes_app :
    pC2.uuid ∉ ([] : List String) ∧ hasJunkFilename pC2 = false :=
  planning_excludes [pC2] [] (fun _ => false) false pC2 (by decide)

/-- C3: in the planning output every locally-available candidate precedes
every remote-only candidate (a later position being locally available
forces every earlier position to be too), and with `local_only` set the
output contains no remote-only candidate. -/
theorem planning_order (photos : List Candidate) (imported : List String)
    (fs : String → Bool) (localOnly : Bool) (i j : Nat) (p : Candidate)
    (hi : i < (get_photos_to_import photos imported fs localOnly).length)
    (hj : j < (get_photos_to_import photos imported fs localOnly).length)
    (hij : i < j) :
    (localAvail fs
        ((get_photos_to_import photos imported fs localOnly).get ⟨j, hj⟩)
          = true →
      localAvail fs
        ((get_photos_to_import photos imported fs localOnly).get ⟨i, hi⟩)
          = true)
    ∧ (localOnly = true →
        p ∈ get_photos_to_import photos imported fs localOnly →
        localAvail fs p = true) := by
  constructor
  · intro hjt
    have hj' := hj
    have hi' := hi
    unfold get_photos_to_import at hj' hi' hjt ⊢
    rw [List.get_eq_getElem] at hjt ⊢
    have hjl : j < (categorize imported fs localOnly photos).1.length := by
      by_contra hge
      push_neg at hge
      rw [List.getElem_append_right hge] at hjt
      have hb : j - (categorize imported fs localOnly photos).1.length
          < (categorize imported fs localOnly photos).2.length := by
        rw [List.length_append] at hj'
        omega
      have hmem := List.getElem_mem
        (l := (categorize imported fs localOnly photos).2)
        (n := j - (categorize imported fs localOnly photos).1.length) hb
      rcases mem_categorize_snd imported fs localOnly _ photos hmem with
        ⟨_, _, _, hfalse, _⟩
      rw [hfalse] at hjt
      exact Bool.false_ne_true hjt
    have hil : i < (categorize imported fs localOnly photos).1.length :=
      lt_trans hij hjl
    rw [List.getElem_append_left hil]
    have hmem := List.getElem_mem
      (l := (categorize imported fs localOnly photos).1) (n := i) hil
    rcases mem_categorize_fst imported fs localOnly _ photos hmem with
      ⟨_, _, _, htrue⟩
    exact htrue
  · intro hlo hp
    unfold get_photos_to_import at hp
    rcases List.mem_append.mp hp with h | h
    · exact (mem_categorize_fst imported fs localOnly p photos h).2.2.2
    · have := (mem_categorize_snd imported fs localOnly p photos h).2.2.2.2
      rw [hlo] at this
      exact absurd this (by decide)

/-- C3 witness: the theorem applied to a concrete two-candidate catalog. -/
theorem planning_order_app :
    localAvail fsAll
      ((get_photos_to_import [aC3, bC3] [] fsAll true).get ⟨0, by decide⟩)
        = true
    ∧ localAvail fsAll aC3 = true :=
  ⟨(planning_order [aC3, bC3] [] fsAll true 0 1 aC3 (by decide) (by decide)
      (by decide)).1 (by decide),
   (planning_order [aC3, bC3] [] fsAll true 0 1 aC3 (by decide) (by decide)
      (by decide)).2 rfl (by decide)⟩

/-- C4: `upload_asset` is a total function into `UploadResult` (so no
exception escapes): a transport error yields a failure with an error
detail, any status outside {200, 201} yields a failure with an error
detail, status 201 yields success with the duplicate flag taken from the
response body, and status 200 yields success with `duplicate = true`. -/
theorem uploadAsset_outcomes (filePath msg text : String) (status : Nat)
    (bodyId : Option String) (bodyDuplicate : Option Bool) :
    (upload_asset true filePath (.transportError msg)).success = false
    ∧ (upload_asset true filePath (.transportError msg)).error.isSome = true
    ∧ (status ≠ 200 → status ≠ 201 →
        (upload_asset true filePath
            (.response status bodyId bodyDuplicate text)).success = false
        ∧ (upload_asset true filePath
            (.response status bodyId bodyDuplicate text)).error.isSome = true)
    ∧ upload_asset true filePath (.response 201 bodyId bodyDuplicate text)
        = { success := true, asset_id := bodyId,
            duplicate := bodyDuplicate.getD false }
    ∧ upload_asset true filePath (.response 200 bodyId bodyDuplicate text)
        = { success := true, asset_id := bodyId, duplicate := true } := by
  refine ⟨rfl, rfl, ?_, rfl, rfl⟩
  intro h200 h201
  simp [upload_asset, h200, h201]

/-- C4 witness: the theorem applied at a concrete failed status. -/
theorem uploadAsset_outcomes_app :
    (upload_asset true "f.jpg" (.response 500 none none "boom")).success = false
    ∧ (upload_asset true "f.jpg"
        (.response 500 none none "boom")).error.isSome = true :=
  (uploadAsset_outcomes "f.jpg" "m" "boom" 500 none none).2.2.1
    (by decide) (by decide)

/-- In dry-run mode the item loop only increments the skipped counter. -/
lemma processBatch_dry (env : Candidate → ItemEnv) (batch : List Candidate) :
    ∀ st : RunState,
      batch.foldl (processItem true env) st =
        { st with stats :=
            { st.stats with skipped := st.stats.skipped + batch.length } } := by
  induction batch with
  | nil => intro st; rfl
  | cons p rest ih =>
    intro st
    rw [List.foldl_cons, ih]
    simp only [processItem, if_pos, List.length_cons, RunState.mk.injEq,
      Stats.mk.injEq, true_and, and_true]
    omega

/-- C7: dry-run over any batch performs no export, no upload, no Ledger
write and no staging write: the stats are `skipped = n` and all other
counters zero, the ledger and staging directory are unchanged, and no
upload call is made. -/
theorem dryRun_noop (env : Candidate → ItemEnv) (batch : List Candidate)
    (ledger : Ledger) (staging : List String) :
    (processBatch true env batch ledger staging).stats.skipped = batch.length
    ∧ (processBatch true env batch ledger staging).stats.exported = 0
    ∧ (processBatch true env batch ledger staging).stats.uploaded = 0
    ∧ (processBatch true env batch ledger staging).stats.duplicates = 0
    ∧ (processBatch true env batch ledger staging).stats.failed = 0
    ∧ (processBatch true env batch ledger staging).ledger = ledger
    ∧ (processBatch true env batch ledger staging).staging = staging
    ∧ (processBatch true env batch ledger staging).uploadCalls = [] := by
  unfold processBatch
  rw [processBatch_dry]
  simp

/-- C5: an upload outcome of success with `duplicate = true` is recorded
in the Ledger exactly like a fresh upload, increments the duplicates
counter by one, and leaves the uploaded counter unchanged. -/
theorem duplicate_advances_ledger (env : Candidate → ItemEnv)
    (st : RunState) (photo : Candidate) (f : ExportedFile)
    (hexp : (env photo).exportResult = some f)
    (hsuc : (env photo).uploadResult.success = true)
    (hdup : (env photo).uploadResult.duplicate = true) :
    (processItem false env st photo).ledger
      = mark_imported st.ledger
          ⟨photo.uuid, (env photo).uploadResult.asset_id, filenameFor photo,
           f.size, mediaTypeFor photo⟩
    ∧ (processItem false env st photo).stats.duplicates
        = st.stats.duplicates + 1
    ∧ (processItem false env st photo).stats.uploaded
        = st.stats.uploaded := by
  refine ⟨?_, ?_, ?_⟩ <;> simp [processItem, hexp, hsuc, hdup]

/-- C5 witness: the theorem applied at a concrete duplicate upload. -/
theorem duplicate_advances_ledger_app :
    (processItem false envC5 stEmpty pC5).ledger
      = mark_imported stEmpty.ledger
          ⟨pC5.uuid, (envC5 pC5).uploadResult.asset_id, filenameFor pC5,
           fC5.size, mediaTypeFor pC5⟩
    ∧ (processItem false envC5 stEmpty pC5).stats.duplicates
        = stEmpty.stats.duplicates + 1
    ∧ (processItem false envC5 stEmpty pC5).stats.uploaded
        = stEmpty.stats.uploaded :=
  duplicate_advances_ledger envC5 stEmpty pC5 fC5 rfl rfl rfl

/-- Each item leaves the upload-call log unchanged (dry run or failed
export) or appends exactly one call with both timestamps from
`timestampsFor`. -/
lemma processItem_calls (dr : Bool) (env : Candidate → ItemEnv)
    (st : RunState) (photo : Candidate) :
    (processItem dr env st photo).uploadCalls = st.uploadCalls
    ∨ ∃ f, (env photo).exportResult = some f ∧
        (processItem dr env st photo).uploadCalls
          = st.uploadCalls ++ [⟨photo.uuid, "dam-icloud-drain",
              some (timestampsFor photo f).1, some (timestampsFor photo f).2⟩] := by
  cases dr with
  | true => left; simp [processItem]
  | false =>
    cases hexp : (env photo).exportResult with
    | none => left; simp [processItem, hexp]
    | some f =>
      right
      refine ⟨f, rfl, ?_⟩
      cases hs : (env photo).uploadResult.success <;>
        simp [processItem, hexp, hs]

/-- Every call in the log of a batch run came from `timestampsFor`. -/
lemma processBatch_calls_shape (dr : Bool) (env : Candidate → ItemEnv) :
    ∀ (batch : List Candidate) (st : RunState) (call : UploadCall),
      call ∈ (batch.foldl (processItem dr env) st).uploadCalls →
      call ∈ st.uploadCalls
      ∨ ∃ p f, call = ⟨p.uuid, "dam-icloud-drain",
          some (timestampsFor p f).1, some (timestampsFor p f).2⟩ := by
  intro batch
  induction batch with
  | nil => intro st call h; left; exact h
  | cons q t ih =>
    intro st call h
    rcases ih (processItem dr env st q) call h with hin | hex
    · rcases processItem_calls dr env st q with heq | ⟨f, _, heq⟩
      · left; rwa [heq] at hin
      · rw [heq] at hin
        rcases List.mem_append.mp hin with h1 | h2
        · left; exact h1
        · right
          exact ⟨q, f, by simpa using h2⟩
    · right; exact hex

/-- The fixed timestamp format never produces the empty string. -/
lemma isoFormat_ne_empty (d : DateTime) : isoFormat d ≠ "" := by
  intro h
  have hlen := congrArg String.length h
  simp only [isoFormat, String.length_append] at hlen
  have h5 : (".000Z" : String).length = 5 := by decide
  have h0 : ("" : String).length = 0 := by decide
  omega

/-- Truthy timestamp arguments land in the multipart form data. -/
lemma formData_mem (a b s m : String) (hs : s ≠ "") (hm : m ≠ "") :
    ("fileCreatedAt", s) ∈ uploadFormData a b (some s) (some m)
    ∧ ("fileModifiedAt", m) ∈ uploadFormData a b (some s) (some m) := by
  constructor <;> simp [uploadFormData, hs, hm]

/-- C8: every upload call made by batch processing carries two non-null
timestamps of the fixed `isoFormat` shape (candidate time, or the
exported file's filesystem time when absent), and both reach the
client's form data. -/
theorem upload_timestamps_wellformed (dr : Bool) (env : Candidate → ItemEnv)
    (batch : List Candidate) (ledger : Ledger) (staging : List String)
    (call : UploadCall)
    (hc : call ∈ (processBatch dr env batch ledger staging).uploadCalls) :
    ∃ d1 d2, call.file_created_at = some (isoFormat d1)
      ∧ call.file_modified_at = some (isoFormat d2)
      ∧ ("fileCreatedAt", isoFormat d1) ∈ uploadFormData call.device_asset_id
          call.device_id call.file_created_at call.file_modified_at
      ∧ ("fileModifiedAt", isoFormat d2) ∈ uploadFormData call.device_asset_id
          call.device_id call.file_created_at call.file_modified_at := by
  unfold processBatch at hc
  rcases processBatch_calls_shape dr env batch _ call hc with hin | ⟨p, f, rfl⟩
  · simp at hin
  · refine ⟨p.date.getD f.birthtime, p.date_modified.getD f.mtime,
      rfl, rfl, ?_, ?_⟩
    · exact (formData_mem _ _ _ _ (isoFormat_ne_empty _)
        (isoFormat_ne_empty _)).1
    · exact (formData_mem _ _ _ _ (isoFormat_ne_empty _)
        (isoFormat_ne_empty _)).2

/-- C8 witness: the theorem applied to a concrete one-item batch whose
candidate lacks both timestamps. -/
theorem upload_timestamps_wellformed_app :
    ∃ d1 d2, callC8.file_created_at = some (isoFormat d1)
      ∧ callC8.file_modified_at = some (isoFormat d2)
      ∧ ("fileCreatedAt", isoFormat d1) ∈ uploadFormData callC8.device_asset_id
          callC8.device_id callC8.file_created_at callC8.file_modified_at
      ∧ ("fileModifiedAt", isoFormat d2) ∈ uploadFormData callC8.device_asset_id
          callC8.device_id callC8.file_created_at callC8.file_modified_at :=
  upload_timestamps_wellformed false envC8 [pC8] [] [] callC8 (by decide)

/-- `is_imported` is false exactly when no row carries the uuid. -/
lemma is_imported_false_iff (db : Ledger) (u : String) :
    is_imported db u = false ↔ ∀ a ∈ db, a.icloud_uuid ≠ u := by
  simp [is_imported]

/-- Recording a different identifier cannot make `is_imported` true. -/
lemma is_imported_mark_other (db : Ledger) (r : AssetRecord) (u : String)
    (hne : r.icloud_uuid ≠ u) (h : is_imported db u = false) :
    is_imported (mark_imported db r) u = false := by
  rw [is_imported_false_iff] at h ⊢
  intro a ha
  rcases List.mem_cons.mp ha with rfl | hm
  · exact hne
  · exact h a (List.mem_of_mem_filter hm)

/-- If every batch item with a given uuid fails export, the batch run
adds no ledger record for that uuid. -/
lemma processBatch_no_record (env : Candidate → ItemEnv) :
    ∀ (batch : List Candidate) (st : RunState) (u : String),
      is_imported st.ledger u = false →
      (∀ Y ∈ batch, Y.uuid = u → (env Y).exportResult = none) →
      is_imported (batch.foldl (processItem false env) st).ledger u
        = false := by
  intro batch
  induction batch with
  | nil => intro st u h _; exact h
  | cons q t ih =>
    intro st u h hall
    apply ih
    · by_cases hq : q.uuid = u
      · have hnone := hall q (List.mem_cons_self q t) hq
        have : (processItem false env st q).ledger = st.ledger := by
          simp [processItem, hnone]
        rwa [this]
      · cases hexp : (env q).exportResult with
        | none =>
          have : (processItem false env st q).ledger = st.ledger := by
            simp [processItem, hexp]
          rwa [this]
        | some f =>
          cases hs : (env q).uploadResult.success with
          | false =>
            have : (processItem false env st q).ledger = st.ledger := by
              simp [processItem, hexp, hs]
            rwa [this]
          | true =>
            have : (processItem false env st q).ledger
                = mark_imported st.ledger
                    ⟨q.uuid, (env q).uploadResult.asset_id, filenameFor q,
                     f.size, mediaTypeFor q⟩ := by
              simp [processItem, hexp, hs]
            rw [this]
            exact is_imported_mark_other _ _ _ hq h
    · intro Y hY hYu
      exact hall Y (List.mem_cons_of_mem q hY) hYu

/-- A uuid that `is_imported` rejects is not among the imported uuids. -/
lemma not_mem_uuids_of_not_imported (db : Ledger) (u : String)
    (h : is_imported db u = false) : u ∉ get_imported_uuids db := by
  intro hmem
  rcases List.mem_map.mp hmem with ⟨a, ha, heq⟩
  exact (is_imported_false_iff db u).mp h a ha heq

/-- C6: when an item's export fails, the run continues (the item only
bumps the failed counter, leaving ledger and staging untouched), the
batch run creates no Ledger record for it, the staging directory is
empty after the batch's final sweep, the next run's planning still
offers the item as a candidate, and within the run the item is not
retried (once batched, it is excluded from the remaining worklist). -/
theorem export_failure_isolated (env : Candidate → ItemEnv)
    (batch : List Candidate) (X : Candidate) (ledger : Ledger)
    (staging : List String) (st : RunState) (photos2 : List Candidate)
    (fs : String → Bool) (localOnly : Bool) (photos3 : List Candidate)
    (mb2 : Nat) (mi2 : Int)
    (hexp : ∀ Y ∈ batch, Y.uuid = X.uuid → (env Y).exportResult = none)
    (hnotyet : is_imported ledger X.uuid = false)
    (hX : X ∈ batch) (hX2 : X ∈ photos2) (hjunk : junkGuard X = false)
    (havail : localAvail fs X = true ∨ localOnly = false) :
    ((processItem false env st X).stats.failed = st.stats.failed + 1
      ∧ (processItem false env st X).ledger = st.ledger
      ∧ (processItem false env st X).staging = st.staging)
    ∧ is_imported (processBatch false env batch ledger staging).ledger X.uuid
        = false
    ∧ (sweepStaging (processBatch false env batch ledger staging)).staging
        = []
    ∧ X ∈ get_photos_to_import photos2
        (get_imported_uuids
          (processBatch false env batch ledger staging).ledger)
        fs localOnly
    ∧ (X ∈ build_batch photos3 mb2 mi2 →
        X ∉ photos3.filter (fun q =>
          ¬ ((build_batch photos3 mb2 mi2).map Candidate.uuid).contains
              q.uuid)) := by
  have hXnone := hexp X hX rfl
  have hbatch : is_imported
      (processBatch false env batch ledger staging).ledger X.uuid = false :=
    processBatch_no_record env batch _ X.uuid hnotyet hexp
  refine ⟨⟨?_, ?_, ?_⟩, hbatch, rfl, ?_, ?_⟩
  · simp [processItem, hXnone]
  · simp [processItem, hXnone]
  · simp [processItem, hXnone]
  · have hni := not_mem_uuids_of_not_imported _ _ hbatch
    rcases categorize_complete
        (get_imported_uuids
          (processBatch false env batch ledger staging).ledger)
        fs localOnly X photos2 hX2 hni hjunk with ⟨hl, hc⟩
    unfold get_photos_to_import
    rcases havail with ha | hlo
    · exact List.mem_append.mpr (Or.inl (hl ha))
    · by_cases ha : localAvail fs X = true
      · exact List.mem_append.mpr (Or.inl (hl ha))
      · have haf : localAvail fs X = false := by simpa using ha
        exact List.mem_append.mpr (Or.inr (hc haf hlo))
  · intro hXb hXf
    have hpred := (List.mem_filter.mp hXf).2
    have hmemu : X.uuid ∈ (build_batch photos3 mb2 mi2).map Candidate.uuid :=
      List.mem_map.mpr ⟨X, hXb, rfl⟩
    simp only [decide_eq_true_eq] at hpred
    exact hpred (by simpa using hmemu)

/-- C6 witness: the theorem applied at a concrete failing export. -/
theorem export_failure_isolated_app :
    ((processItem false envC6 stEmpty pC6).stats.failed
        = stEmpty.stats.failed + 1
      ∧ (processItem false envC6 stEmpty pC6).ledger = stEmpty.ledger
      ∧ (processItem false envC6 stEmpty pC6).staging = stEmpty.staging)
    ∧ is_imported (processBatch false envC6 [pC6] [] []).ledger pC6.uuid
        = false
    ∧ (sweepStaging (processBatch false envC6 [pC6] [] [])).staging = []
    ∧ pC6 ∈ get_photos_to_import [pC6]
        (get_imported_uuids (processBatch false envC6 [pC6] [] []).ledger)
        (fun _ => false) false
    ∧ pC6 ∉ ([pC6] : List Candidate).filter (fun q =>
        ¬ ((build_batch [pC6] 100 0).map Candidate.uuid).contains q.uuid) :=
  ⟨(export_failure_isolated envC6 [pC6] pC6 [] [] stEmpty [pC6]
      (fun _ => false) false [pC6] 100 0 (by decide) (by decide) (by decide)
      (by decide) (by decide) (Or.inr rfl)).1,
   (export_failure_isolated envC6 [pC6] pC6 [] [] stEmpty [pC6]
      (fun _ => false) false [pC6] 100 0 (by decide) (by decide) (by decide)
      (by decide) (by decide) (Or.inr rfl)).2.1,
   (export_failure_isolated envC6 [pC6] pC6 [] [] stEmpty [pC6]
      (fun _ => false) false [pC6] 100 0 (by decide) (by decide) (by decide)
      (by decide) (by decide) (Or.inr rfl)).2.2.1,
   (export_failure_isolated envC6 [pC6] pC6 [] [] stEmpty [pC6]
      (fun _ => false) false [pC6] 100 0 (by decide) (by decide) (by decide)
      (by decide) (by decide) (Or.inr rfl)).2.2.2.1,
   (export_failure_isolated envC6 [pC6] pC6 [] [] stEmpty [pC6]
      (fun _ => false) false [pC6] 100 0 (by decide) (by decide) (by decide)
      (by decide) (by decide) (Or.inr rfl)).2.2.2.2 (by decide)⟩

/-- Filtering out an element actually present strictly shrinks a list. -/
lemma filter_length_lt {α : Type} (pred : α → Bool) :
    ∀ (l : List α) (x : α), x ∈ l → pred x = false →
      (l.filter pred).length < l.length := by
  intro l
  induction l with
  | nil => intro x hx; simp at hx
  | cons a t ih =>
    intro x hx hpx
    rcases List.mem_cons.mp hx with rfl | hm
    · simp only [List.filter_cons, hpx, List.length_cons]
      exact Nat.lt_succ_of_le (List.length_filter_le pred t)
    · cases hpa : pred a
      · simp only [List.filter_cons, hpa, List.length_cons]
        exact Nat.lt_succ_of_le (List.length_filter_le pred t)
      · simp only [List.filter_cons, hpa, List.length_cons]
        exact Nat.succ_lt_succ (ih x hm hpx)

/-- With a non-negative item cap, `build_batch` of a non-empty worklist
is a non-empty prefix of it. -/
lemma build_batch_take (mb : Nat) (mi : Int) (hmi : 0 ≤ mi)
    (p : Candidate) (t : List Candidate) :
    ∃ k, 0 < k ∧ build_batch (p :: t) mb mi = (p :: t).take k := by
  unfold build_batch
  simp only [buildBatchGo]
  split_ifs with h1 h2
  · exfalso
    rcases h1 with ⟨hne, hge⟩
    simp only [List.length_nil, Int.natCast_zero] at hge
    omega
  · exact absurd h2.2 (by simp)
  · rcases buildBatchGo_take mb mi t [p] (0 + declaredSize p) with ⟨k, hk⟩
    refine ⟨k + 1, Nat.succ_pos k, ?_⟩
    simp only [List.nil_append]
    rw [hk, List.take_succ_cons]
    rfl

/-- `drainLoop` is fuel-stable: any fuel at least the worklist length
gives the same batches, so the batching loop terminates. -/
lemma drainLoop_fuel (mb : Nat) (mi : Int) :
    ∀ (n : Nat) (photos : List Candidate) (f1 f2 : Nat),
      photos.length ≤ n → photos.length ≤ f1 → photos.length ≤ f2 →
      drainLoop mb mi f1 photos = drainLoop mb mi f2 photos := by
  intro n
  induction n with
  | zero =>
    intro photos f1 f2 hn _ _
    have hnil : photos = [] := List.eq_nil_of_length_eq_zero
      (Nat.le_zero.mp hn)
    subst hnil
    cases f1 <;> cases f2 <;> rfl
  | succ m ih =>
    intro photos f1 f2 hn h1 h2
    cases photos with
    | nil => cases f1 <;> cases f2 <;> rfl
    | cons p t =>
      obtain ⟨g1, rfl⟩ : ∃ g, f1 = g + 1 :=
        ⟨f1 - 1, by simp at h1; omega⟩
      obtain ⟨g2, rfl⟩ : ∃ g, f2 = g + 1 :=
        ⟨f2 - 1, by simp at h2; omega⟩
      simp only [drainLoop]
      by_cases hb : build_batch (p :: t) mb mi = []
      · simp [hb]
      · simp only [hb, if_false]
        congr 1
        have hlt : ((p :: t).filter (fun q =>
            ¬ ((build_batch (p :: t) mb mi).map Candidate.uuid).contains
              q.uuid)).length < (p :: t).length := by
          apply filter_length_lt _ _ p (List.mem_cons_self p t)
          rcases buildBatchGo_take mb mi (p :: t) [] 0 with ⟨k, hk⟩
          have hk' : build_batch (p :: t) mb mi = (p :: t).take k := by
            unfold build_batch
            rw [hk]
            rfl
          rcases k with _ | k2
          · exact absurd (by simpa using hk') hb
          · rw [hk', List.take_succ_cons]
            simp
        simp only [List.length_cons] at hlt hn h1 h2
        exact ih _ _ _ (by omega) (by omega) (by omega)

/-- C10: for a non-empty worklist and non-negative item cap,
`build_batch` returns a non-empty contiguous prefix of the worklist, the
remaining worklist after removing the batch's uuids is strictly shorter,
and the orchestrator's batching loop terminates (its fueled unfolding is
stable for any fuel at least the worklist length). -/
theorem batching_progress (photos : List Candidate) (maxBytes : Nat)
    (maxItems : Int) (extra : Nat) (hne : photos ≠ [])
    (hmi : 0 ≤ maxItems) :
    build_batch photos maxBytes maxItems ≠ []
    ∧ (∃ k, 0 < k ∧ build_batch photos maxBytes maxItems = photos.take k)
    ∧ (photos.filter (fun q =>
        ¬ ((build_batch photos maxBytes maxItems).map Candidate.uuid).contains
            q.uuid)).length < photos.length
    ∧ drainLoop maxBytes maxItems (photos.length + extra) photos
        = drainLoop maxBytes maxItems photos.length photos := by
  cases photos with
  | nil => exact absurd rfl hne
  | cons p t =>
    rcases build_batch_take maxBytes maxItems hmi p t with ⟨k, hk, heq⟩
    have hne2 : build_batch (p :: t) maxBytes maxItems ≠ [] := by
      rw [heq]
      rcases k with _ | k2
      · exact (Nat.lt_irrefl 0 hk).elim
      · simp [List.take_succ_cons]
    refine ⟨hne2, ⟨k, hk, heq⟩, ?_, ?_⟩
    · apply filter_length_lt _ _ p (List.mem_cons_self p t)
      rw [heq]
      rcases k with _ | k2
      · exact (Nat.lt_irrefl 0 hk).elim
      · rw [List.take_succ_cons]
        simp
    · exact drainLoop_fuel maxBytes maxItems ((p :: t).length + extra)
        (p :: t) _ _ (by omega) (by omega) (by omega)

/-- C10 witness: the theorem applied at a concrete one-item worklist. -/
theorem batching_progress_app :
    build_batch [pC1] 100 0 ≠ []
    ∧ (∃ k, 0 < k ∧ build_batch [pC1] 100 0 = ([pC1] : List Candidate).take k)
    ∧ (([pC1] : List Candidate).filter (fun q =>
        ¬ ((build_batch [pC1] 100 0).map Candidate.uuid).contains
            q.uuid)).length < ([pC1] : List Candidate).length
    ∧ drainLoop 100 0 (([pC1] : List Candidate).length + 2) [pC1]
        = drainLoop 100 0 ([pC1] : List Candidate).length [pC1] :=
  batching_progress [pC1] 100 0 2 (by decide) (by decide)

end Dam
